import Mathlib

/-!
Verification of the statistical-association utilities of the
`nena_research` repository (`verbs/significance.py`, `verbs/positions.py`).

Pandas dataframes of co-occurrence counts are embedded as matrices with a
row count, a column count and a total entry function into `ℚ` (pandas
integer/float arithmetic on counts is exact rational arithmetic for the
inputs the claims quantify over).  The functions `contingency_table` and
`apply_fishers` are translated line by line from `significance.py`;
`scipy.stats.fisher_exact` is external library code and is modelled from
the specification's definition of the two-sided Fisher's Exact Test.
-/

/-- A labeled 2-dimensional dataframe with entries in `α`: `rows`/`cols`
give its shape, `entry i j` the cell at row `i`, column `j`. -/
structure GMat (α : Type) where
  rows : ℕ
  cols : ℕ
  entry : ℕ → ℕ → α

/-- Count dataframes (pandas numeric frames, embedded exactly). -/
abbrev Mat := GMat ℚ

/-- Real-valued dataframes (for log-transformed scores). -/
abbrev MatR := GMat ℝ

namespace GMat

/-- Pandas transpose `df.T`. -/
def transpose {α : Type} (M : GMat α) : GMat α :=
  ⟨M.cols, M.rows, fun i j => M.entry j i⟩

/-- Element-wise subtraction `A.sub(B)` of frames of equal shape. -/
def sub (A B : Mat) : Mat :=
  ⟨A.rows, A.cols, fun i j => A.entry i j - B.entry i j⟩

/-- Element-wise addition `A + B` of frames of equal shape. -/
def add (A B : Mat) : Mat :=
  ⟨A.rows, A.cols, fun i j => A.entry i j + B.entry i j⟩

/-- Element-wise product `A * B` of frames of equal shape. -/
def mul (A B : Mat) : Mat :=
  ⟨A.rows, A.cols, fun i j => A.entry i j * B.entry i j⟩

/-- Element-wise division of a frame by a scalar, `A / t`. -/
def divQ (A : Mat) (t : ℚ) : Mat :=
  ⟨A.rows, A.cols, fun i j => A.entry i j / t⟩

/-- Pandas `row.sum()`: the sum of row `i` of the frame. -/
def rowSum (M : Mat) (i : ℕ) : ℚ :=
  ∑ j ∈ Finset.range M.cols, M.entry i j

/-- Pandas `col.sum()`: the sum of column `j` of the frame. -/
def colSum (M : Mat) (j : ℕ) : ℚ :=
  ∑ i ∈ Finset.range M.rows, M.entry i j

/-- Pandas `df.sum().sum()`: sum each column, then total the column
sums. -/
def total (M : Mat) : ℚ :=
  ∑ j ∈ Finset.range M.cols, M.colSum j

end GMat

/-- Pandas `df.apply(lambda row: row.sum(), axis=1,
result_type='broadcast')`: each cell of a row holds that row's sum. -/
def samp_margins (df : Mat) : Mat :=
  ⟨df.rows, df.cols, fun i _ => df.rowSum i⟩

/-- Pandas `df.apply(lambda col: col.sum(), axis=0,
result_type='broadcast')`: each cell of a column holds that column's
sum. -/
def feat_margins (df : Mat) : Mat :=
  ⟨df.rows, df.cols, fun _ j => df.colSum j⟩

/-- A frame of the shape of `df` with every cell equal to `t`
(`d = df.copy(); d[:] = t`). -/
def constLike (df : Mat) (t : ℚ) : Mat :=
  ⟨df.rows, df.cols, fun _ _ => t⟩

/-- The computational body of `contingency_table` (lines 71-89 of
`significance.py`) in canonical sample-by-feature orientation: returns
`(a, b, c, d, e)` where `a` is the input frame itself. -/
def ctCore (df : Mat) : Mat × Mat × Mat × Mat × Mat :=
  let samp := samp_margins df
  let feat := feat_margins df
  let total_margin := df.total
  let b := samp.sub df
  let c := feat.sub df
  let d := (constLike df total_margin).sub ((df.add b).add c)
  let e := (samp.mul feat).divQ total_margin
  (df, b, c, d, e)

/-- Transpose all five result frames
(`df,b,c,d,e = df.T, b.T, c.T, d.T, e.T`, line 92). -/
def ct5T (t : Mat × Mat × Mat × Mat × Mat) : Mat × Mat × Mat × Mat × Mat :=
  (t.1.transpose, t.2.1.transpose, t.2.2.1.transpose,
   t.2.2.2.1.transpose, t.2.2.2.2.transpose)

/-- Function `contingency_table(df, sample_axis, feature_axis)`, lines 61-93 of
`significance.py`: transpose the frame when `(sample_axis, feature_axis)
= (1, 0)`; otherwise raise when `sample_axis != 0 and feature_axis != 1`;
compute `(a, b, c, d, e)` in the working orientation; finally transpose
all five results back when `sample_axis == 1`. -/
def contingency_table (df : Mat) (sample_axis feature_axis : ℤ) :
    Except String (Mat × Mat × Mat × Mat × Mat) :=
  if sample_axis = 1 ∧ feature_axis = 0 then
    Except.ok (ct5T (ctCore df.transpose))
  else if sample_axis ≠ 0 ∧ feature_axis ≠ 1 then
    Except.error "Invalid axis! Should be 0 or 1"
  else if sample_axis = 1 then
    Except.ok (ct5T (ctCore df))
  else
    Except.ok (ctCore df)

/-- The hypergeometric probability of a 2x2 table with row margins
`r1, r2`, first-column margin `cs` and top-left cell `k`. -/
def hypergeomPMF (r1 r2 cs k : ℕ) : ℚ :=
  ((r1.choose k : ℚ) * (r2.choose (cs - k) : ℚ)) / ((r1 + r2).choose cs : ℚ)

/-- Modelled from the spec: `scipy.stats.fisher_exact`'s two-sided
p-value (external library code, not in this repository) — "sum of
probabilities of all 2x2 tables with the same margins that are no more
probable than the observed table". -/
def fisherP (a b c d : ℕ) : ℚ :=
  ∑ k ∈ (Finset.range (a + c + 1)).filter
      (fun k => hypergeomPMF (a + b) (c + d) (a + c) k ≤
        hypergeomPMF (a + b) (c + d) (a + c) a),
    hypergeomPMF (a + b) (c + d) (a + c) k

/-- Truncation of an integer-valued rational count to a natural number. -/
def qToNat (q : ℚ) : ℕ := q.num.toNat

/-- Modelled from the spec: `scipy.stats.fisher_exact` on the table
`[[a, b], [c, d]]` returns `(oddsratio, p_value)` where the odds ratio
is the sample odds ratio `a*d / (b*c)` and the p-value is the two-sided
Fisher's Exact Test p-value. -/
def fisher_exact (a b c d : ℚ) : ℚ × ℚ :=
  ((a * d) / (b * c), fisherP (qToNat a) (qToNat b) (qToNat c) (qToNat d))

/-- The Fisher's test invocation of the loop body of `apply_fishers`
(lines 134-141): extract `a, b, c, d` for the pair `(s, f)` from the
working frame and its contingency frames, and run the test. -/
def fisherAt (df : Mat) (s f : ℕ) : ℚ × ℚ :=
  fisher_exact (df.entry s f) ((ctCore df).2.1.entry s f)
    ((ctCore df).2.2.1.entry s f) ((ctCore df).2.2.2.1.entry s f)

/-- The expected frequency `e_df[feature][sample]` read in the loop body
(line 148). -/
def expectedAt (df : Mat) (s f : ℕ) : ℚ :=
  (ctCore df).2.2.2.2.entry s f

/-- The score recorded for the pair `(s, f)` (lines 145-155): the raw
p-value without `logtransform`, else `log10(p)` when `a` is below the
expected frequency and `-log10(p)` otherwise. -/
noncomputable def scoreCell (df : Mat) (logtransform : Bool) (s f : ℕ) : ℝ :=
  let a := df.entry s f
  let p := (fisherAt df s f).2
  if logtransform = false then (p : ℝ)
  else if a < expectedAt df s f then Real.logb 10 (p : ℝ)
  else -Real.logb 10 (p : ℝ)

/-- The score frame of `apply_fishers` in the working orientation. -/
noncomputable def psCore (df : Mat) (logtransform : Bool) : MatR :=
  ⟨df.rows, df.cols, fun s f => scoreCell df logtransform s f⟩

/-- The odds-ratio frame of `apply_fishers` in the working
orientation. -/
def oddsCore (df : Mat) : Mat :=
  ⟨df.rows, df.cols, fun s f => (fisherAt df s f).1⟩

/-- Function `apply_fishers(df, sample_axis, feature_axis, logtransform)`, lines
118-161 of `significance.py`: the same reorientation and guard as
`contingency_table`; Fisher's test cell by cell on the working frame;
the dictionaries are assembled with `orient='columns'` when
`sample_axis == 0` (canonical orientation) and `orient='index'`
otherwise (transposed orientation). -/
noncomputable def apply_fishers (df : Mat) (sample_axis feature_axis : ℤ)
    (logtransform : Bool) : Except String (MatR × Mat) :=
  if sample_axis = 1 ∧ feature_axis = 0 then
    Except.ok ((psCore df.transpose logtransform).transpose,
      (oddsCore df.transpose).transpose)
  else if sample_axis ≠ 0 ∧ feature_axis ≠ 1 then
    Except.error "Invalid axis! Should be 0 or 1"
  else if sample_axis = 0 then
    Except.ok (psCore df logtransform, oddsCore df)
  else
    Except.ok ((psCore df logtransform).transpose, (oddsCore df).transpose)

/-- The reorientation step shared by both functions (lines 63-64 and
120-121): the working frame is the transpose exactly when
`(sample_axis, feature_axis) = (1, 0)`. -/
def reorient (df : Mat) (sample_axis feature_axis : ℤ) : Mat :=
  if sample_axis = 1 ∧ feature_axis = 0 then df.transpose else df

/-- The cell of a result frame holding the pair (sample `s`, feature
`f`): at `(s, f)` in canonical orientation, at `(f, s)` when the caller
declared `sample_axis = 1`. -/
def pairEntry {α : Type} (P : GMat α) (sample_axis : ℤ) (s f : ℕ) : α :=
  if sample_axis = 0 then P.entry s f else P.entry f s

/-- The concrete example matrix of the spec: samples `{w1, w2}` as rows,
features `{f1, f2}` as columns, counts `w1/f1=10, w1/f2=2, w2/f1=3,
w2/f2=15`. -/
def exM : Mat :=
  ⟨2, 2, fun i j =>
    if i = 0 then (if j = 0 then 10 else 2)
    else if i = 1 then (if j = 0 then 3 else 15)
    else 0⟩

/-- The `Positions` class of `verbs/positions.py`, instantiated at integer
elements (Text-Fabric nodes).  `element` is the origin element,
`positions` the ordered context, `default` the configured fallback
(`None` is `Option.none`). -/
structure Positions where
  element : ℤ
  positions : List ℤ
  default : Option ℤ

/-- Line 24: `self.originindex = self.positions.index(element)`. -/
def Positions.originindex (P : Positions) : ℕ :=
  P.positions.indexOf P.element

/-- Method `Positions.elementpos` (lines 27-56): add the signed offset to the
origin index; replace the index by `None` when it is `≤ -1`; indexing
with `None` (TypeError) or past the end (IndexError) yields `None`. -/
def Positions.elementpos (P : Positions) (position : ℤ) : Option ℤ :=
  let pos_index : ℤ := (P.originindex : ℤ) + position
  if pos_index > -1 then
    if h : pos_index.toNat < P.positions.length then
      some (P.positions.get ⟨pos_index.toNat, h⟩)
    else none
  else none

/-- Python truthiness of `get_pos`: falsy when `None` or the integer
`0`. -/
def truthy (x : Option ℤ) : Bool :=
  match x with
  | none => false
  | some v => v != 0

/-- Method `Positions.get` (lines 58-83): fall back to `self.default` when the
`default` argument is `None`; look the position up; if the result is
truthy return it (through `act` when given), else return the default. -/
def Positions.get (P : Positions) (position : ℤ) (default : Option ℤ)
    (act : Option (ℤ → ℤ)) : Option ℤ :=
  let default := if default.isSome then default else P.default
  let get_pos := P.elementpos position
  if truthy get_pos then
    match act with
    | none => get_pos
    | some f => get_pos.map f
  else
    default

/-- The grand total is invariant under transposition. -/
theorem total_transpose (M : Mat) : M.transpose.total = M.total := by
  unfold GMat.total GMat.colSum GMat.transpose
  exact Finset.sum_comm

example : exM.total = 30 := by
  norm_num [GMat.total, GMat.colSum, exM, Finset.sum_range_succ]
example : exM.rowSum 0 = 12 := by
  norm_num [GMat.rowSum, exM, Finset.sum_range_succ]
example : exM.colSum 0 = 13 := by
  norm_num [GMat.colSum, exM, Finset.sum_range_succ]
example : (ctCore exM).2.2.2.2.entry 0 0 = 26 / 5 := by
  norm_num [ctCore, GMat.mul, GMat.divQ, samp_margins, feat_margins,
    GMat.rowSum, GMat.colSum, GMat.total, exM, Finset.sum_range_succ]

/-- C1: the axis guard `sample_axis != 0 and feature_axis != 1` does NOT
fire for `(0, 0)` or `(1, 1)`: both `contingency_table` and
`apply_fishers` silently compute and return result matrices instead of
raising the invalid-axis error, contradicting the documented
validation. -/
theorem C1_invalid_axes_not_rejected (M : Mat) (lt : Bool) :
    contingency_table M 0 0 = Except.ok (ctCore M) ∧
    contingency_table M 1 1 = Except.ok (ct5T (ctCore M)) ∧
    apply_fishers M 0 0 lt = Except.ok (psCore M lt, oddsCore M) ∧
    apply_fishers M 1 1 lt =
      Except.ok ((psCore M lt).transpose, (oddsCore M).transpose) :=
  ⟨rfl, rfl, rfl, rfl⟩

/-- C2: for every count matrix with non-negative cells, at least one row
and one column, and valid axis arguments, the cells of the returned
`a, b, c, d` matrices sum to the grand total of the matrix at every
position. -/
theorem C2_margin_conservation (M : Mat) (sa fa : ℤ)
    (hax : sa = 0 ∧ fa = 1 ∨ sa = 1 ∧ fa = 0)
    (hpos : ∀ i j, 0 ≤ M.entry i j)
    (hdim : 0 < M.rows ∧ 0 < M.cols)
    (out : Mat × Mat × Mat × Mat × Mat)
    (hok : contingency_table M sa fa = Except.ok out) (i j : ℕ) :
    out.1.entry i j + out.2.1.entry i j + out.2.2.1.entry i j +
      out.2.2.2.1.entry i j = M.total := by
  rcases hax with ⟨h1, h2⟩ | ⟨h1, h2⟩ <;> subst h1 <;> subst h2
  · have h : Except.ok (ctCore M) = Except.ok out := hok
    injection h with h
    subst h
    simp only [ctCore, GMat.sub, GMat.add, constLike, samp_margins,
      feat_margins]
    ring
  · have h : Except.ok (ct5T (ctCore M.transpose)) = Except.ok out := hok
    injection h with h
    subst h
    rw [← total_transpose M]
    simp only [ct5T, ctCore, GMat.sub, GMat.add, constLike, samp_margins,
      feat_margins, GMat.transpose]
    ring

/-- C2 witness: margin conservation at cell (0,0) of the concrete 2x2
example matrix. -/
theorem C2_margin_conservation_witness :
    (ctCore exM).1.entry 0 0 + (ctCore exM).2.1.entry 0 0 +
      (ctCore exM).2.2.1.entry 0 0 + (ctCore exM).2.2.2.1.entry 0 0 =
      exM.total :=
  C2_margin_conservation exM 0 1 (Or.inl ⟨rfl, rfl⟩)
    (by intro i j; dsimp only [exM]; split_ifs <;> norm_num)
    ⟨by decide, by decide⟩ (ctCore exM) rfl 0 0

/-- C3: for every count matrix with nonzero grand total and valid axis
arguments, the expected-frequency matrix satisfies, at the cell of
sample `s` and feature `f`, `e = (sample marginal) * (feature marginal)
/ grand total` (samples are rows when `sample_axis = 0` and columns when
`sample_axis = 1`). -/
theorem C3_expected_frequency (M : Mat) (htot : M.total ≠ 0) :
    (∀ out, contingency_table M 0 1 = Except.ok out →
      ∀ s f, out.2.2.2.2.entry s f = M.rowSum s * M.colSum f / M.total) ∧
    (∀ out, contingency_table M 1 0 = Except.ok out →
      ∀ s f, out.2.2.2.2.entry f s = M.colSum s * M.rowSum f / M.total) := by
  constructor
  · intro out hok s f
    have h : Except.ok (ctCore M) = Except.ok out := hok
    injection h with h
    subst h
    simp only [ctCore, GMat.mul, GMat.divQ, samp_margins, feat_margins]
  · intro out hok s f
    have h : Except.ok (ct5T (ctCore M.transpose)) = Except.ok out := hok
    injection h with h
    subst h
    rw [← total_transpose M]
    simp only [ct5T, ctCore, GMat.mul, GMat.divQ, samp_margins,
      feat_margins, GMat.transpose, GMat.rowSum, GMat.colSum]

/-- C3 witness: the expected frequency at (w1, f1) of the example matrix
follows the marginal formula. -/
theorem C3_expected_frequency_witness :
    (ctCore exM).2.2.2.2.entry 0 0 =
      exM.rowSum 0 * exM.colSum 0 / exM.total :=
  (C3_expected_frequency exM
      (by norm_num [GMat.total, GMat.colSum, exM, Finset.sum_range_succ])).1
    (ctCore exM) rfl 0 0

/-- C4: computing with `(sample_axis, feature_axis) = (1, 0)` on the
transpose of `M` returns exactly the transposes of the matrices that
`(0, 1)` on `M` returns, for `contingency_table` and for
`apply_fishers`. -/
theorem C4_axis_swap_symmetry (M : Mat) (lt : Bool) :
    contingency_table M.transpose 1 0 =
      Except.map ct5T (contingency_table M 0 1) ∧
    apply_fishers M.transpose 1 0 lt =
      Except.map (fun r => (r.1.transpose, r.2.transpose))
        (apply_fishers M 0 1 lt) :=
  ⟨rfl, rfl⟩

/-- Each hypergeometric probability is non-negative. -/
theorem hypergeomPMF_nonneg (r1 r2 cs k : ℕ) : 0 ≤ hypergeomPMF r1 r2 cs k :=
  div_nonneg (mul_nonneg (Nat.cast_nonneg _) (Nat.cast_nonneg _))
    (Nat.cast_nonneg _)

/-- The modelled two-sided Fisher p-value is strictly positive: the
observed table itself always contributes. -/
theorem fisherP_pos (a b c d : ℕ) : 0 < fisherP a b c d := by
  unfold fisherP
  apply Finset.sum_pos'
  · intro k _
    exact hypergeomPMF_nonneg _ _ _ _
  · refine ⟨a, ?_, ?_⟩
    · simp only [Finset.mem_filter, Finset.mem_range]
      exact ⟨by omega, le_refl _⟩
    · unfold hypergeomPMF
      have h1 : (0:ℚ) < ((a + b).choose a : ℚ) := by
        exact_mod_cast Nat.choose_pos (Nat.le_add_right a b)
      have h2 : (0:ℚ) < ((c + d).choose (a + c - a) : ℚ) := by
        have hc : a + c - a = c := by omega
        rw [hc]
        exact_mod_cast Nat.choose_pos (Nat.le_add_right c d)
      have h3 : (0:ℚ) < ((a + b + (c + d)).choose (a + c) : ℚ) := by
        exact_mod_cast Nat.choose_pos (by omega)
      exact div_pos (mul_pos h1 h2) h3

/-- The modelled two-sided Fisher p-value is at most 1: it is a subset
of a hypergeometric distribution summing to 1 (Vandermonde). -/
theorem fisherP_le_one (a b c d : ℕ) : fisherP a b c d ≤ 1 := by
  unfold fisherP
  have hden : (0:ℚ) < ((a + b + (c + d)).choose (a + c) : ℚ) := by
    exact_mod_cast Nat.choose_pos (by omega)
  have hsum : ∑ k ∈ Finset.range (a + c + 1),
      hypergeomPMF (a + b) (c + d) (a + c) k = 1 := by
    unfold hypergeomPMF
    rw [← Finset.sum_div]
    have hnum : ∑ k ∈ Finset.range (a + c + 1),
        ((a + b).choose k : ℚ) * ((c + d).choose (a + c - k) : ℚ) =
        ((a + b + (c + d)).choose (a + c) : ℚ) := by
      norm_cast
      rw [Nat.add_choose_eq]
      exact (Finset.Nat.sum_antidiagonal_eq_sum_range_succ_mk
        (fun ij => (a + b).choose ij.1 * (c + d).choose ij.2) (a + c)).symm
    rw [hnum, div_self hden.ne']
  have hle : ∑ k ∈ (Finset.range (a + c + 1)).filter
      (fun k => hypergeomPMF (a + b) (c + d) (a + c) k ≤
        hypergeomPMF (a + b) (c + d) (a + c) a),
      hypergeomPMF (a + b) (c + d) (a + c) k ≤
      ∑ k ∈ Finset.range (a + c + 1),
        hypergeomPMF (a + b) (c + d) (a + c) k :=
    Finset.sum_le_sum_of_subset_of_nonneg (Finset.filter_subset _ _)
      (fun k _ _ => hypergeomPMF_nonneg _ _ _ _)
  exact hle.trans (le_of_eq hsum)

/-- The score cell with `logtransform=True` branches on `a < e`. -/
theorem scoreCell_true (df : Mat) (s f : ℕ) :
    scoreCell df true s f =
      if df.entry s f < expectedAt df s f then
        Real.logb 10 ((fisherAt df s f).2 : ℝ)
      else -Real.logb 10 ((fisherAt df s f).2 : ℝ) := rfl

/-- The score cell with `logtransform=False` is the raw p-value. -/
theorem scoreCell_false (df : Mat) (s f : ℕ) :
    scoreCell df false s f = ((fisherAt df s f).2 : ℝ) := rfl

/-- On valid axes, the result frames of `apply_fishers` hold, at the
position of the pair (sample `s`, feature `f`), the per-cell score and
odds ratio of the working-orientation frame. -/
theorem apply_fishers_valid (M : Mat) (sa fa : ℤ)
    (hax : sa = 0 ∧ fa = 1 ∨ sa = 1 ∧ fa = 0) (lt : Bool)
    (out : MatR × Mat) (hok : apply_fishers M sa fa lt = Except.ok out)
    (s f : ℕ) :
    pairEntry out.1 sa s f = scoreCell (reorient M sa fa) lt s f ∧
    pairEntry out.2 sa s f = (fisherAt (reorient M sa fa) s f).1 := by
  rcases hax with ⟨h1, h2⟩ | ⟨h1, h2⟩ <;> subst h1 <;> subst h2
  · have h : Except.ok (psCore M lt, oddsCore M) = Except.ok out := hok
    injection h with h
    subst h
    exact ⟨rfl, rfl⟩
  · have h : Except.ok ((psCore M.transpose lt).transpose,
        (oddsCore M.transpose).transpose) = Except.ok out := hok
    injection h with h
    subst h
    exact ⟨rfl, rfl⟩

/-- C5: with `logtransform=True` and valid axes, the recorded score of
every (sample, feature) pair is `log10(p)` (and `≤ 0`) when the observed
count is below the expected frequency, and `-log10(p)` (and `≥ 0`)
otherwise, `p` being the two-sided Fisher's Exact Test p-value of the
pair's 2x2 table. -/
theorem C5_score_sign (M : Mat) (sa fa : ℤ)
    (hax : sa = 0 ∧ fa = 1 ∨ sa = 1 ∧ fa = 0)
    (hcount : ∀ i j, ∃ n : ℕ, M.entry i j = (n : ℚ))
    (out : MatR × Mat)
    (hok : apply_fishers M sa fa true = Except.ok out) (s f : ℕ) :
    ((reorient M sa fa).entry s f < expectedAt (reorient M sa fa) s f →
      pairEntry out.1 sa s f =
        Real.logb 10 ((fisherAt (reorient M sa fa) s f).2 : ℝ) ∧
      pairEntry out.1 sa s f ≤ 0) ∧
    (¬ (reorient M sa fa).entry s f < expectedAt (reorient M sa fa) s f →
      pairEntry out.1 sa s f =
        -Real.logb 10 ((fisherAt (reorient M sa fa) s f).2 : ℝ) ∧
      0 ≤ pairEntry out.1 sa s f) := by
  have hps := (apply_fishers_valid M sa fa hax true out hok s f).1
  rw [hps, scoreCell_true]
  have hp0 : (0:ℚ) < (fisherAt (reorient M sa fa) s f).2 :=
    fisherP_pos _ _ _ _
  have hp1 : (fisherAt (reorient M sa fa) s f).2 ≤ 1 :=
    fisherP_le_one _ _ _ _
  have hp0R : (0:ℝ) ≤ ((fisherAt (reorient M sa fa) s f).2 : ℝ) := by
    exact_mod_cast hp0.le
  have hp1R : ((fisherAt (reorient M sa fa) s f).2 : ℝ) ≤ 1 := by
    exact_mod_cast hp1
  have hlogb : Real.logb 10 ((fisherAt (reorient M sa fa) s f).2 : ℝ) ≤ 0 :=
    Real.logb_nonpos (by norm_num) hp0R hp1R
  constructor
  · intro hlt
    rw [if_pos hlt]
    exact ⟨rfl, hlogb⟩
  · intro hge
    rw [if_neg hge]
    exact ⟨rfl, by linarith⟩

/-- C5 witness: at (w1, f1) of the example matrix the observed count 10
is not below the expected frequency 5.2, so the recorded score is
`-log10(p)` and non-negative. -/
theorem C5_score_sign_witness :
    (psCore exM true).entry 0 0 =
      -Real.logb 10 ((fisherAt exM 0 0).2 : ℝ) ∧
    0 ≤ (psCore exM true).entry 0 0 :=
  (C5_score_sign exM 0 1 (Or.inl ⟨rfl, rfl⟩)
      (by
        intro i j
        dsimp only [exM]
        split_ifs
        · exact ⟨10, by norm_num⟩
        · exact ⟨2, by norm_num⟩
        · exact ⟨3, by norm_num⟩
        · exact ⟨15, by norm_num⟩
        · exact ⟨0, by norm_num⟩)
      (psCore exM true, oddsCore exM) rfl 0 0).2
    (by
      norm_num [reorient, expectedAt, ctCore, GMat.mul, GMat.divQ,
        samp_margins, feat_margins, GMat.rowSum, GMat.colSum, GMat.total,
        exM, Finset.sum_range_succ])

/-- Modelled from the spec: the sign rule of 4.2.3.e applied externally
to a returned p-value — `log10(p)` when the observed count is below the
expected frequency, `-log10(p)` otherwise. -/
noncomputable def signRuleTransform (a e : ℚ) (p : ℝ) : ℝ :=
  if a < e then Real.logb 10 p else -Real.logb 10 p

/-- C6: applying the sign rule to the p-values returned with
`logtransform=False` yields, cell for cell, the score matrix returned
with `logtransform=True` on the same input. -/
theorem C6_transform_roundtrip (M : Mat) (sa fa : ℤ)
    (hax : sa = 0 ∧ fa = 1 ∨ sa = 1 ∧ fa = 0)
    (outF outT : MatR × Mat)
    (hF : apply_fishers M sa fa false = Except.ok outF)
    (hT : apply_fishers M sa fa true = Except.ok outT) (s f : ℕ) :
    pairEntry outT.1 sa s f =
      signRuleTransform ((reorient M sa fa).entry s f)
        (expectedAt (reorient M sa fa) s f) (pairEntry outF.1 sa s f) := by
  have h1 := (apply_fishers_valid M sa fa hax false outF hF s f).1
  have h2 := (apply_fishers_valid M sa fa hax true outT hT s f).1
  rw [h1, h2, scoreCell_true, scoreCell_false]
  rfl

/-- C6 witness: the round-trip identity at (w1, f1) of the example
matrix. -/
theorem C6_transform_roundtrip_witness :
    (psCore exM true).entry 0 0 =
      signRuleTransform (exM.entry 0 0) (expectedAt exM 0 0)
        ((psCore exM false).entry 0 0) :=
  C6_transform_roundtrip exM 0 1 (Or.inl ⟨rfl, rfl⟩)
    (psCore exM false, oddsCore exM) (psCore exM true, oddsCore exM)
    rfl rfl 0 0

/-- C7: on the concrete 2x2 scenario matrix (w1/f1=10, w1/f2=2, w2/f1=3,
w2/f2=15) with `(sample_axis, feature_axis) = (0, 1)`,
`contingency_table` yields a=10, b=2, c=3, d=15, e=5.2 at (w1, f1), and
`apply_fishers` with `logtransform=True` yields there a non-negative
score and the odds ratio `(a*d)/(b*c) = 25`. -/
theorem C7_concrete_scenario :
    contingency_table exM 0 1 = Except.ok (ctCore exM) ∧
    (ctCore exM).1.entry 0 0 = 10 ∧
    (ctCore exM).2.1.entry 0 0 = 2 ∧
    (ctCore exM).2.2.1.entry 0 0 = 3 ∧
    (ctCore exM).2.2.2.1.entry 0 0 = 15 ∧
    (ctCore exM).2.2.2.2.entry 0 0 = 26 / 5 ∧
    apply_fishers exM 0 1 true = Except.ok (psCore exM true, oddsCore exM) ∧
    0 ≤ (psCore exM true).entry 0 0 ∧
    (oddsCore exM).entry 0 0 = 25 := by
  refine ⟨rfl, ?_, ?_, ?_, ?_, ?_, rfl, ?_, ?_⟩
  · norm_num [ctCore, exM]
  · norm_num [ctCore, GMat.sub, samp_margins, GMat.rowSum, exM,
      Finset.sum_range_succ]
  · norm_num [ctCore, GMat.sub, feat_margins, GMat.colSum, exM,
      Finset.sum_range_succ]
  · norm_num [ctCore, GMat.sub, GMat.add, constLike, samp_margins,
      feat_margins, GMat.rowSum, GMat.colSum, GMat.total, exM,
      Finset.sum_range_succ]
  · norm_num [ctCore, GMat.mul, GMat.divQ, samp_margins, feat_margins,
      GMat.rowSum, GMat.colSum, GMat.total, exM, Finset.sum_range_succ]
  · have hnot : ¬ exM.entry 0 0 < expectedAt exM 0 0 := by
      norm_num [expectedAt, ctCore, GMat.mul, GMat.divQ, samp_margins,
        feat_margins, GMat.rowSum, GMat.colSum, GMat.total, exM,
        Finset.sum_range_succ]
    show (0:ℝ) ≤ scoreCell exM true 0 0
    rw [scoreCell_true, if_neg hnot]
    have h0 : (0:ℚ) < (fisherAt exM 0 0).2 := fisherP_pos _ _ _ _
    have h1 : (fisherAt exM 0 0).2 ≤ 1 := fisherP_le_one _ _ _ _
    have hlogb : Real.logb 10 ((fisherAt exM 0 0).2 : ℝ) ≤ 0 :=
      Real.logb_nonpos (by norm_num) (by exact_mod_cast h0.le)
        (by exact_mod_cast h1)
    linarith
  · norm_num [oddsCore, fisherAt, fisher_exact, ctCore, GMat.sub,
      GMat.add, constLike, samp_margins, feat_margins, GMat.rowSum,
      GMat.colSum, GMat.total, exM, Finset.sum_range_succ]

/-- A pandas dataframe object: a count frame or a real-valued score
frame. -/
inductive Frame where
  | counts : Mat → Frame
  | scores : MatR → Frame

/-- The empty dataframe, used as an out-of-store default. -/
def emptyMat : Mat := ⟨0, 0, fun _ _ => 0⟩

/-- An object store for dataframes: references are indices below `size`;
`val` gives the object held at a reference. -/
structure Heap where
  size : ℕ
  val : ℕ → Frame

/-- Allocate a fresh dataframe object, returning the new store and the
fresh reference. -/
def Heap.alloc (h : Heap) (fr : Frame) : Heap × ℕ :=
  (⟨h.size + 1, fun x => if x = h.size then fr else h.val x⟩, h.size)

/-- Overwrite the object at an existing reference in place
(`d[:] = ...`). -/
def Heap.write (h : Heap) (ref : ℕ) (fr : Frame) : Heap :=
  ⟨h.size, fun x => if x = ref then fr else h.val x⟩

/-- Read a count frame out of the store. -/
def Heap.getQ (h : Heap) (ref : ℕ) : Mat :=
  match h.val ref with
  | Frame.counts m => m
  | Frame.scores _ => emptyMat

/-- Store-level model of the body of `contingency_table` (lines 71-93):
`df.apply(...)`, `.sub`, `+` and `/` return fresh frames,
`pd.DataFrame.copy(df, deep=True)` allocates a deep copy,
`d[:] = total_margin` writes that copy in place, `d = d.sub(...)` and
`e = ...` allocate fresh frames, and the returned `a` component is the
working frame `df` itself (`return (df, b, c, d, e)`). -/
def ctCoreHeap (h : Heap) (rdf : ℕ) : Heap × (ℕ × ℕ × ℕ × ℕ × ℕ) :=
  let df := h.getQ rdf
  let samp := samp_margins df
  let feat := feat_margins df
  let total_margin := df.total
  let (h1, _rsamp) := h.alloc (Frame.counts samp)
  let (h2, _rfeat) := h1.alloc (Frame.counts feat)
  let (h3, rb) := h2.alloc (Frame.counts (samp.sub df))
  let (h4, rc) := h3.alloc (Frame.counts (feat.sub df))
  let (h5, rd0) := h4.alloc (Frame.counts df)
  let h6 := h5.write rd0 (Frame.counts (constLike df total_margin))
  let (h7, rd) := h6.alloc (Frame.counts ((constLike df total_margin).sub
      ((df.add (samp.sub df)).add (feat.sub df))))
  let (h8, re) := h7.alloc (Frame.counts ((samp.mul feat).divQ total_margin))
  (h8, (rdf, rb, rc, rd, re))

/-- Store-level model of the final transposition
`df,b,c,d,e = df.T, b.T, c.T, d.T, e.T` (line 92): each `.T` creates a
new dataframe object. -/
def ct5THeap (h : Heap) (refs : ℕ × ℕ × ℕ × ℕ × ℕ) :
    Heap × (ℕ × ℕ × ℕ × ℕ × ℕ) :=
  let (h1, ra) := h.alloc (Frame.counts (h.getQ refs.1).transpose)
  let (h2, rb) := h1.alloc (Frame.counts (h1.getQ refs.2.1).transpose)
  let (h3, rc) := h2.alloc (Frame.counts (h2.getQ refs.2.2.1).transpose)
  let (h4, rd) := h3.alloc (Frame.counts (h3.getQ refs.2.2.2.1).transpose)
  let (h5, re) := h4.alloc (Frame.counts (h4.getQ refs.2.2.2.2).transpose)
  (h5, (ra, rb, rc, rd, re))

/-- Store-level model of `contingency_table`: the same guard as the pure
embedding, with `df.T` allocating a new working frame in the `(1, 0)`
case and the final transposition allocating five new frames whenever
`sample_axis == 1`. -/
def contingency_tableHeap (h : Heap) (rdf : ℕ) (sa fa : ℤ) :
    Except String (Heap × (ℕ × ℕ × ℕ × ℕ × ℕ)) :=
  if sa = 1 ∧ fa = 0 then
    let (h1, rT) := h.alloc (Frame.counts (h.getQ rdf).transpose)
    let (h2, refs) := ctCoreHeap h1 rT
    Except.ok (ct5THeap h2 refs)
  else if sa ≠ 0 ∧ fa ≠ 1 then
    Except.error "Invalid axis! Should be 0 or 1"
  else if sa = 1 then
    let (h2, refs) := ctCoreHeap h rdf
    Except.ok (ct5THeap h2 refs)
  else
    Except.ok (ctCoreHeap h rdf)

/-- The score matrix assembled by the loop of `apply_fishers`, reading
the working frame and the contingency frames out of the store. -/
noncomputable def psFromHeap (h : Heap) (w rb rc rd re : ℕ) (lt : Bool) :
    MatR :=
  ⟨(h.getQ w).rows, (h.getQ w).cols, fun s f =>
    let a := (h.getQ w).entry s f
    let p := (fisher_exact a ((h.getQ rb).entry s f) ((h.getQ rc).entry s f)
      ((h.getQ rd).entry s f)).2
    if lt = false then (p : ℝ)
    else if a < (h.getQ re).entry s f then Real.logb 10 (p : ℝ)
    else -Real.logb 10 (p : ℝ)⟩

/-- The odds-ratio matrix assembled by the loop of `apply_fishers`. -/
def oddsFromHeap (h : Heap) (w rb rc rd : ℕ) : Mat :=
  ⟨(h.getQ w).rows, (h.getQ w).cols, fun s f =>
    (fisher_exact ((h.getQ w).entry s f) ((h.getQ rb).entry s f)
      ((h.getQ rc).entry s f) ((h.getQ rd).entry s f)).1⟩

/-- The tail of `apply_fishers` after the guard: call the contingency
builder in canonical orientation, run the loop reading the store, then
`pd.DataFrame.from_dict` allocates the two result frames (transposed
content when `orient='index'`, i.e. when the caller's sample axis is not
0). -/
noncomputable def afTailHeap (h : Heap) (w : ℕ) (flip lt : Bool) :
    Except String (Heap × ℕ × ℕ) :=
  match contingency_tableHeap h w 0 1 with
  | Except.error e => Except.error e
  | Except.ok (h2, refs) =>
    let ps := psFromHeap h2 w refs.2.1 refs.2.2.1 refs.2.2.2.1
      refs.2.2.2.2 lt
    let odds := oddsFromHeap h2 w refs.2.1 refs.2.2.1 refs.2.2.2.1
    let (h3, rps) := h2.alloc (Frame.scores (if flip then ps.transpose else ps))
    let (h4, rodds) := h3.alloc
      (Frame.counts (if flip then odds.transpose else odds))
    Except.ok (h4, rps, rodds)

/-- Store-level model of `apply_fishers`: the guard of lines 120-123
(with `df.T` allocating a new working frame), then the loop and the
`from_dict` assembly. -/
noncomputable def apply_fishersHeap (h : Heap) (rdf : ℕ) (sa fa : ℤ)
    (lt : Bool) : Except String (Heap × ℕ × ℕ) :=
  if sa = 1 ∧ fa = 0 then
    let (h1, rT) := h.alloc (Frame.counts (h.getQ rdf).transpose)
    afTailHeap h1 rT true lt
  else if sa ≠ 0 ∧ fa ≠ 1 then
    Except.error "Invalid axis! Should be 0 or 1"
  else
    afTailHeap h rdf (if sa = 0 then false else true) lt

/-- The `(1, 0)` path of `contingency_tableHeap` as a total function:
allocate the transposed working frame, run the core, transpose back. -/
def ct10Heap (h : Heap) (rdf : ℕ) : Heap × (ℕ × ℕ × ℕ × ℕ × ℕ) :=
  let (h1, rT) := h.alloc (Frame.counts (h.getQ rdf).transpose)
  let (h2, refs) := ctCoreHeap h1 rT
  ct5THeap h2 refs

/-- On the canonical axes the store-level builder always succeeds with
the core result. -/
theorem contingency_tableHeap_01 (h : Heap) (rdf : ℕ) :
    contingency_tableHeap h rdf 0 1 = Except.ok (ctCoreHeap h rdf) := rfl

/-- On the swapped axes the store-level builder always succeeds with the
transposed result. -/
theorem contingency_tableHeap_10 (h : Heap) (rdf : ℕ) :
    contingency_tableHeap h rdf 1 0 = Except.ok (ct10Heap h rdf) := rfl

/-- The tail of `apply_fishersHeap` as a total function. -/
noncomputable def afTailHeapOut (h : Heap) (w : ℕ) (flip lt : Bool) :
    Heap × ℕ × ℕ :=
  let res := ctCoreHeap h w
  let h2 := res.1
  let refs := res.2
  let ps := psFromHeap h2 w refs.2.1 refs.2.2.1 refs.2.2.2.1 refs.2.2.2.2 lt
  let odds := oddsFromHeap h2 w refs.2.1 refs.2.2.1 refs.2.2.2.1
  let (h3, rps) := h2.alloc (Frame.scores (if flip then ps.transpose else ps))
  let (h4, rodds) := h3.alloc
    (Frame.counts (if flip then odds.transpose else odds))
  (h4, rps, rodds)

/-- The Except-level tail always succeeds with the total version. -/
theorem afTailHeap_ok (h : Heap) (w : ℕ) (flip lt : Bool) :
    afTailHeap h w flip lt = Except.ok (afTailHeapOut h w flip lt) := rfl

/-- The core writes no pre-existing reference: every frame already in
the store before the call is unchanged after it. -/
theorem ctCoreHeap_preserve (h : Heap) (rdf r' : ℕ) (hr' : r' < h.size) :
    (ctCoreHeap h rdf).1.val r' = h.val r' := by
  simp only [ctCoreHeap, Heap.alloc, Heap.write]
  split_ifs <;> first | rfl | (exfalso; omega)

/-- The references returned by the core: `a` is the input reference, the
rest are fresh. -/
theorem ctCoreHeap_refs (h : Heap) (rdf : ℕ) :
    (ctCoreHeap h rdf).2 =
      (rdf, h.size + 2, h.size + 3, h.size + 5, h.size + 6) := rfl


/-- The size of the store after the core: seven fresh frames. -/
theorem ctCoreHeap_size (h : Heap) (rdf : ℕ) :
    (ctCoreHeap h rdf).1.size = h.size + 7 := rfl

/-- The size of a store after one allocation. -/
theorem Heap.alloc_size (h : Heap) (fr : Frame) :
    (h.alloc fr).1.size = h.size + 1 := rfl

/-- A single allocation does not change any pre-existing reference. -/
theorem Heap.alloc_val_lt (h : Heap) (fr : Frame) (r' : ℕ)
    (hr' : r' < h.size) : (h.alloc fr).1.val r' = h.val r' := by
  simp only [Heap.alloc]
  split_ifs <;> first | rfl | (exfalso; omega)

/-- The final transposition writes no pre-existing reference. -/
theorem ct5THeap_preserve (h : Heap) (refs : ℕ × ℕ × ℕ × ℕ × ℕ)
    (r' : ℕ) (hr' : r' < h.size) :
    (ct5THeap h refs).1.val r' = h.val r' := by
  simp only [ct5THeap, Heap.alloc]
  split_ifs <;> first | rfl | (exfalso; omega)

/-- The `(1, 0)` path writes no pre-existing reference. -/
theorem ct10Heap_preserve (h : Heap) (rdf r' : ℕ) (hr' : r' < h.size) :
    (ct10Heap h rdf).1.val r' = h.val r' := by
  have key : ∀ (fr : Frame) (refs : ℕ × ℕ × ℕ × ℕ × ℕ),
      (ct5THeap (ctCoreHeap (h.alloc fr).1 (h.alloc fr).2).1 refs).1.val r' =
        h.val r' := by
    intro fr refs
    calc (ct5THeap (ctCoreHeap (h.alloc fr).1 (h.alloc fr).2).1 refs).1.val r'
        = (ctCoreHeap (h.alloc fr).1 (h.alloc fr).2).1.val r' :=
          ct5THeap_preserve _ _ r'
            (by rw [ctCoreHeap_size, Heap.alloc_size]; omega)
      _ = (h.alloc fr).1.val r' :=
          ctCoreHeap_preserve _ _ r' (by rw [Heap.alloc_size]; omega)
      _ = h.val r' := Heap.alloc_val_lt _ _ r' hr'
  exact key _ _

/-- The references returned by the `(1, 0)` path are all fresh. -/
theorem ct10Heap_refs (h : Heap) (rdf : ℕ) :
    (ct10Heap h rdf).2 = (h.size + 8, h.size + 9, h.size + 10,
      h.size + 11, h.size + 12) := rfl

/-- The tail of `apply_fishersHeap` writes no pre-existing reference. -/
theorem afTailHeapOut_preserve (h : Heap) (w : ℕ) (flip lt : Bool)
    (r' : ℕ) (hr' : r' < h.size) :
    (afTailHeapOut h w flip lt).1.val r' = h.val r' := by
  have key : ∀ (fr1 fr2 : Frame),
      (((ctCoreHeap h w).1.alloc fr1).1.alloc fr2).1.val r' = h.val r' := by
    intro fr1 fr2
    calc (((ctCoreHeap h w).1.alloc fr1).1.alloc fr2).1.val r'
        = ((ctCoreHeap h w).1.alloc fr1).1.val r' :=
          Heap.alloc_val_lt _ _ r'
            (by rw [Heap.alloc_size, ctCoreHeap_size]; omega)
      _ = (ctCoreHeap h w).1.val r' :=
          Heap.alloc_val_lt _ _ r' (by rw [ctCoreHeap_size]; omega)
      _ = h.val r' := ctCoreHeap_preserve _ _ r' hr'
  exact key _ _

/-- The score and odds references returned by the tail are fresh. -/
theorem afTailHeapOut_refs (h : Heap) (w : ℕ) (flip lt : Bool) :
    (afTailHeapOut h w flip lt).2 = (h.size + 7, h.size + 8) := rfl

/-- The frame allocated for `b` by the core. -/
theorem ctCoreHeap_val_b (h : Heap) (rdf : ℕ) :
    (ctCoreHeap h rdf).1.val (h.size + 2) =
      Frame.counts ((samp_margins (h.getQ rdf)).sub (h.getQ rdf)) := by
  simp only [ctCoreHeap, Heap.alloc, Heap.write]
  split_ifs <;> first | rfl | (exfalso; omega)

/-- The frame allocated for `c` by the core. -/
theorem ctCoreHeap_val_c (h : Heap) (rdf : ℕ) :
    (ctCoreHeap h rdf).1.val (h.size + 3) =
      Frame.counts ((feat_margins (h.getQ rdf)).sub (h.getQ rdf)) := by
  simp only [ctCoreHeap, Heap.alloc, Heap.write]
  split_ifs <;> first | rfl | (exfalso; omega)

/-- The frame allocated for `d` by the core. -/
theorem ctCoreHeap_val_d (h : Heap) (rdf : ℕ) :
    (ctCoreHeap h rdf).1.val (h.size + 5) =
      Frame.counts ((constLike (h.getQ rdf) (h.getQ rdf).total).sub
        (((h.getQ rdf).add ((samp_margins (h.getQ rdf)).sub (h.getQ rdf))).add
          ((feat_margins (h.getQ rdf)).sub (h.getQ rdf)))) := by
  simp only [ctCoreHeap, Heap.alloc, Heap.write]
  split_ifs <;> first | rfl | (exfalso; omega)

/-- The frame allocated for `e` by the core. -/
theorem ctCoreHeap_val_e (h : Heap) (rdf : ℕ) :
    (ctCoreHeap h rdf).1.val (h.size + 6) =
      Frame.counts (((samp_margins (h.getQ rdf)).mul
        (feat_margins (h.getQ rdf))).divQ (h.getQ rdf).total) := by
  simp only [ctCoreHeap, Heap.alloc, Heap.write]
  split_ifs <;> first | rfl | (exfalso; omega)

/-- The store refines the pure embedding: after the core runs, the
returned references hold exactly the five matrices of `ctCore` of the
input frame. -/
theorem ctCoreHeap_values (h : Heap) (rdf : ℕ) (hr : rdf < h.size) :
    (ctCoreHeap h rdf).1.getQ (ctCoreHeap h rdf).2.1 =
        (ctCore (h.getQ rdf)).1 ∧
    (ctCoreHeap h rdf).1.getQ (ctCoreHeap h rdf).2.2.1 =
        (ctCore (h.getQ rdf)).2.1 ∧
    (ctCoreHeap h rdf).1.getQ (ctCoreHeap h rdf).2.2.2.1 =
        (ctCore (h.getQ rdf)).2.2.1 ∧
    (ctCoreHeap h rdf).1.getQ (ctCoreHeap h rdf).2.2.2.2.1 =
        (ctCore (h.getQ rdf)).2.2.2.1 ∧
    (ctCoreHeap h rdf).1.getQ (ctCoreHeap h rdf).2.2.2.2.2 =
        (ctCore (h.getQ rdf)).2.2.2.2 := by
  refine ⟨?_, ?_, ?_, ?_, ?_⟩
  · show (ctCoreHeap h rdf).1.getQ rdf = h.getQ rdf
    unfold Heap.getQ
    rw [ctCoreHeap_preserve h rdf rdf hr]
  · show (ctCoreHeap h rdf).1.getQ (h.size + 2) = _
    unfold Heap.getQ
    rw [ctCoreHeap_val_b]
    rfl
  · show (ctCoreHeap h rdf).1.getQ (h.size + 3) = _
    unfold Heap.getQ
    rw [ctCoreHeap_val_c]
    rfl
  · show (ctCoreHeap h rdf).1.getQ (h.size + 5) = _
    unfold Heap.getQ
    rw [ctCoreHeap_val_d]
    rfl
  · show (ctCoreHeap h rdf).1.getQ (h.size + 6) = _
    unfold Heap.getQ
    rw [ctCoreHeap_val_e]
    rfl

/-- The input store of the frame claim: one pre-existing object, the
example matrix, at reference 0. -/
def exHeap : Heap := ⟨1, fun _ => Frame.counts exM⟩

/-- The reference of the first (`a`) result frame of a successful
store-level `contingency_table` call. -/
def ctHeapARef (res : Except String (Heap × (ℕ × ℕ × ℕ × ℕ × ℕ))) :
    Option ℕ :=
  match res with
  | Except.ok (_, refs) => some refs.1
  | Except.error _ => none

/-- C8 counterexample: on the canonical axes `(0, 1)` the `a` matrix
returned by `contingency_table` is the caller's input object itself
(reference 0, already present in the store of size 1), not a newly
constructed frame: `return (df, b, c, d, e)` hands back the working
frame as `a`. -/
theorem C8_counterexample_a_not_fresh :
    ctHeapARef (contingency_tableHeap exHeap 0 0 1) = some 0 ∧
    0 < exHeap.size :=
  ⟨rfl, by decide⟩

/-- C8 amended: on valid axes both functions leave every pre-existing
frame — in particular the caller's input matrix — unchanged, and the
`b`, `c`, `d`, `e` matrices of `contingency_table` as well as both
result matrices of `apply_fishers` are newly constructed; only the `a`
component of `contingency_table` in canonical orientation is the input
object itself rather than a new frame. -/
theorem C8_no_mutation_amended (h : Heap) (r : ℕ) (hr : r < h.size)
    (sa fa : ℤ) (hax : sa = 0 ∧ fa = 1 ∨ sa = 1 ∧ fa = 0) (lt : Bool) :
    (∀ h' refs, contingency_tableHeap h r sa fa = Except.ok (h', refs) →
      (∀ r', r' < h.size → h'.val r' = h.val r') ∧
      h.size ≤ refs.2.1 ∧ h.size ≤ refs.2.2.1 ∧
      h.size ≤ refs.2.2.2.1 ∧ h.size ≤ refs.2.2.2.2) ∧
    (∀ h' rps rodds,
      apply_fishersHeap h r sa fa lt = Except.ok (h', rps, rodds) →
      (∀ r', r' < h.size → h'.val r' = h.val r') ∧
      h.size ≤ rps ∧ h.size ≤ rodds) := by
  rcases hax with ⟨h1, h2⟩ | ⟨h1, h2⟩ <;> subst h1 <;> subst h2
  · constructor
    · intro h' refs hok
      have hck : Except.ok (ctCoreHeap h r) = Except.ok (h', refs) := hok
      injection hck with hk
      have hk2 : ((ctCoreHeap h r).1, (ctCoreHeap h r).2) = (h', refs) := hk
      injection hk2 with hH hR
      subst hH
      subst hR
      refine ⟨fun r' hr' => ctCoreHeap_preserve h r r' hr', ?_, ?_, ?_, ?_⟩ <;>
        · simp only [ctCoreHeap_refs]
          omega
    · intro h' rps rodds hok
      have hok2 : afTailHeap h r false lt = Except.ok (h', rps, rodds) := hok
      rw [afTailHeap_ok] at hok2
      injection hok2 with hk
      have hk2 : ((afTailHeapOut h r false lt).1,
          (afTailHeapOut h r false lt).2) = (h', rps, rodds) := hk
      injection hk2 with hH hR
      subst hH
      have hk3 : ((afTailHeapOut h r false lt).2.1,
          (afTailHeapOut h r false lt).2.2) = (rps, rodds) := hR
      injection hk3 with hPs hOd
      subst hPs
      subst hOd
      refine ⟨fun r' hr' => afTailHeapOut_preserve h r false lt r' hr',
          ?_, ?_⟩ <;>
        · simp only [afTailHeapOut_refs]
          omega
  · constructor
    · intro h' refs hok
      have hck : Except.ok (ct10Heap h r) = Except.ok (h', refs) := hok
      injection hck with hk
      have hk2 : ((ct10Heap h r).1, (ct10Heap h r).2) = (h', refs) := hk
      injection hk2 with hH hR
      subst hH
      subst hR
      refine ⟨fun r' hr' => ct10Heap_preserve h r r' hr', ?_, ?_, ?_, ?_⟩ <;>
        · simp only [ct10Heap_refs]
          omega
    · intro h' rps rodds hok
      have hok2 : afTailHeap
          (h.alloc (Frame.counts (h.getQ r).transpose)).1
          (h.alloc (Frame.counts (h.getQ r).transpose)).2 true lt =
          Except.ok (h', rps, rodds) := hok
      rw [afTailHeap_ok] at hok2
      injection hok2 with hk
      have hk2 : ((afTailHeapOut
          (h.alloc (Frame.counts (h.getQ r).transpose)).1
          (h.alloc (Frame.counts (h.getQ r).transpose)).2 true lt).1,
          (afTailHeapOut (h.alloc (Frame.counts (h.getQ r).transpose)).1
          (h.alloc (Frame.counts (h.getQ r).transpose)).2 true lt).2) =
          (h', rps, rodds) := hk
      injection hk2 with hH hR
      subst hH
      have hk3 : ((afTailHeapOut
          (h.alloc (Frame.counts (h.getQ r).transpose)).1
          (h.alloc (Frame.counts (h.getQ r).transpose)).2 true lt).2.1,
          (afTailHeapOut (h.alloc (Frame.counts (h.getQ r).transpose)).1
          (h.alloc (Frame.counts (h.getQ r).transpose)).2 true lt).2.2) =
          (rps, rodds) := hR
      injection hk3 with hPs hOd
      subst hPs
      subst hOd
      refine ⟨?_, ?_, ?_⟩
      · intro r' hr'
        have hstep : (afTailHeapOut
            (h.alloc (Frame.counts (h.getQ r).transpose)).1
            (h.alloc (Frame.counts (h.getQ r).transpose)).2 true lt).1.val r' =
            (h.alloc (Frame.counts (h.getQ r).transpose)).1.val r' :=
          afTailHeapOut_preserve _ _ true lt r' (by rw [Heap.alloc_size]; omega)
        rw [hstep]
        exact Heap.alloc_val_lt _ _ r' hr'
      · simp only [afTailHeapOut_refs, Heap.alloc_size]
        omega
      · simp only [afTailHeapOut_refs, Heap.alloc_size]
        omega

/-- C8 witness: on the concrete store, the input frame is unchanged by
the core and the `b` reference is fresh. -/
theorem C8_no_mutation_amended_witness :
    (ctCoreHeap exHeap 0).1.val 0 = exHeap.val 0 ∧
    exHeap.size ≤ (ctCoreHeap exHeap 0).2.2.1 := by
  have h := (C8_no_mutation_amended exHeap 0 (by decide) 0 1
      (Or.inl ⟨rfl, rfl⟩) true).1 (ctCoreHeap exHeap 0).1
      (ctCoreHeap exHeap 0).2 rfl
  exact ⟨h.1 0 (by decide), h.2.1⟩

/-- Characterization of `elementpos`: the element at the shifted index
when that index is within `[0, length)`, `None` otherwise. -/
theorem elementpos_eq (P : Positions) (position : ℤ) :
    P.elementpos position =
      if h : 0 ≤ (P.originindex : ℤ) + position ∧
          ((P.originindex : ℤ) + position).toNat < P.positions.length then
        some (P.positions.get
          ⟨((P.originindex : ℤ) + position).toNat, h.2⟩)
      else none := by
  unfold Positions.elementpos
  by_cases h0 : (P.originindex : ℤ) + position > -1
  · rw [if_pos h0]
    by_cases hlt :
        ((P.originindex : ℤ) + position).toNat < P.positions.length
    · rw [dif_pos hlt, dif_pos ⟨by omega, hlt⟩]
    · rw [dif_neg hlt, dif_neg (fun hc => hlt hc.2)]
  · rw [if_neg h0, dif_neg (fun hc => h0 (by omega))]

/-- Characterization of `get` with no explicit default and no callback:
the looked-up element when it is truthy, the configured default when the
lookup failed or the element is falsy. -/
theorem get_eq (P : Positions) (position : ℤ) :
    P.get position none none =
      match P.elementpos position with
      | none => P.default
      | some e => if e ≠ 0 then some e else P.default := by
  unfold Positions.get
  cases hep : P.elementpos position with
  | none => simp [truthy, hep]
  | some e =>
    by_cases he : e = 0
    · subst he
      simp [truthy, hep]
    · simp [truthy, hep, he]

/-- The counterexample context: origin element 5, and the element one
position to the right is the integer 0 (falsy), with configured default
99. -/
def ctrP : Positions := ⟨5, [5, 0], some 99⟩

/-- A context whose right neighbour is truthy, for the amended claim's
witness. -/
def ctrP2 : Positions := ⟨5, [5, 7], some 99⟩

/-- C9 counterexample: offset 1 from the origin is within bounds and
holds the element 0, yet `get` returns the configured default 99 instead
of the element, because the code tests Python truthiness
(`if get_pos:`) rather than `is not None`. -/
theorem C9_counterexample_falsy_element :
    (ctrP.originindex : ℤ) + 1 > -1 ∧
    ((ctrP.originindex : ℤ) + 1).toNat < ctrP.positions.length ∧
    ctrP.elementpos 1 = some 0 ∧
    ctrP.get 1 none none = some 99 ∧
    some (99:ℤ) ≠ some (0:ℤ) := by decide

/-- C9 amended: `get` returns the element at the signed offset whenever
the computed index is within the sequence bounds AND that element is
truthy (non-zero); it returns the configured default when the index
falls outside the bounds OR the element at it is falsy. -/
theorem C9_get_amended (P : Positions) (hmem : P.element ∈ P.positions)
    (position : ℤ) :
    (∀ _h0 : 0 ≤ (P.originindex : ℤ) + position,
     ∀ hlt : ((P.originindex : ℤ) + position).toNat < P.positions.length,
      (P.positions.get ⟨((P.originindex : ℤ) + position).toNat, hlt⟩ ≠ 0 →
        P.get position none none =
          some (P.positions.get
            ⟨((P.originindex : ℤ) + position).toNat, hlt⟩)) ∧
      (P.positions.get ⟨((P.originindex : ℤ) + position).toNat, hlt⟩ = 0 →
        P.get position none none = P.default)) ∧
    ((¬ (0 ≤ (P.originindex : ℤ) + position ∧
        ((P.originindex : ℤ) + position).toNat < P.positions.length)) →
      P.get position none none = P.default) := by
  constructor
  · intro h0 hlt
    have hep : P.elementpos position =
        some (P.positions.get
          ⟨((P.originindex : ℤ) + position).toNat, hlt⟩) := by
      rw [elementpos_eq, dif_pos ⟨h0, hlt⟩]
    constructor
    · intro hne
      rw [get_eq, hep]
      exact if_pos hne
    · intro heq
      rw [get_eq, hep]
      exact if_neg (fun hc => hc heq)
  · intro hnot
    have hep : P.elementpos position = none := by
      rw [elementpos_eq, dif_neg hnot]
    rw [get_eq, hep]

/-- C9 witness: in the truthy context, the right neighbour 7 is indeed
returned by `get`. -/
theorem C9_get_amended_witness :
    ctrP2.get 1 none none = some 7 :=
  ((C9_get_amended ctrP2 (by decide) 1).1 (by decide) (by decide)).1
    (by decide)

/-- C10: when the shifted index is negative, `elementpos` returns `None`
instead of wrapping around to the end of the sequence (the code replaces
any index `≤ -1` by `None` before subscripting), and an index at or past
the end of the sequence also yields `None`. -/
theorem C10_no_negative_wraparound (P : Positions)
    (hmem : P.element ∈ P.positions) (position : ℤ)
    (h : (P.originindex : ℤ) + position < 0 ∨
      (P.positions.length : ℤ) ≤ (P.originindex : ℤ) + position) :
    P.elementpos position = none := by
  rw [elementpos_eq]
  rcases h with h | h
  · exact dif_neg (fun hc => by omega)
  · exact dif_neg (fun hc => by omega)

/-- C10 witness: one step left of the first element yields `None`. -/
theorem C10_no_negative_wraparound_witness :
    ctrP.elementpos (-1) = none :=
  C10_no_negative_wraparound ctrP (by decide) (-1) (Or.inl (by decide))
